import Mathlib

set_option maxRecDepth 4000

/-!
Verification of the message-relay worker (`src/worker.js`).

The JavaScript source is shallowly embedded: strings are Lean `String`s
(manipulated through their underlying `List Char`), byte sequences are
`List Nat` with every byte reduced modulo 256 where it is produced, and the
effectful handlers are pure functions that return the list of outbound
transport calls (`Effect`) they would issue, together with any new stored
state.  `crypto.subtle.digest('SHA-256', ·)` and HMAC-SHA-256 are implemented
bit-for-bit (FIPS 180-4 / RFC 2104) so that signature computations evaluate
to the same hex strings the worker produces.
-/

namespace Worker

/-! ### JavaScript string primitives -/

/-- Whitespace recognised by `String.prototype.trim` (ASCII subset, which is
all the worker's inputs use). -/
def jsWhitespace (c : Char) : Bool :=
  c = ' ' || c = '\t' || c = '\n' || c = '\r' || c = Char.ofNat 11 || c = Char.ofNat 12

/-- `String.prototype.trim` on a character list. -/
def jsTrim (l : List Char) : List Char :=
  ((l.dropWhile jsWhitespace).reverse.dropWhile jsWhitespace).reverse

/-- `String.prototype.split(sep)` for a single-character separator: keeps
empty segments, exactly like JavaScript. -/
def splitChar (sep : Char) : List Char → List (List Char)
  | [] => [[]]
  | c :: rest =>
    match splitChar sep rest with
    | [] => [[c]]
    | p :: ps => if c = sep then [] :: p :: ps else (c :: p) :: ps

/-- `Array.prototype.join(sep)` for a single-character separator. -/
def joinSep (sep : Char) : List (List Char) → List Char
  | [] => []
  | [p] => p
  | p :: ps => p ++ sep :: joinSep sep ps

/-- `String.prototype.includes(needle)` on character lists. -/
def containsSub (needle : List Char) : List Char → Bool
  | [] => needle.isPrefixOf []
  | c :: rest => needle.isPrefixOf (c :: rest) || containsSub needle rest

/-- JavaScript truthiness of a possibly-`undefined` string
(`undefined` and `""` are falsy). -/
def jsTruthy : Option String → Bool
  | none => false
  | some s => s ≠ ""

/-- JavaScript `a || b` on possibly-`undefined` strings. -/
def jsOrStr (a b : Option String) : Option String :=
  match a with
  | some s => if s = "" then b else some s
  | none => b

/-! ### SHA-256 (FIPS 180-4) over byte lists -/

/-- Word size modulus. -/
def M32 : Nat := 4294967296

/-- 32-bit right rotation. -/
def rotr32 (n x : Nat) : Nat := ((x >>> n) ||| (x <<< (32 - n))) % M32

def bigSigma0 (x : Nat) : Nat := rotr32 2 x ^^^ rotr32 13 x ^^^ rotr32 22 x
def bigSigma1 (x : Nat) : Nat := rotr32 6 x ^^^ rotr32 11 x ^^^ rotr32 25 x
def smallSigma0 (x : Nat) : Nat := rotr32 7 x ^^^ rotr32 18 x ^^^ (x >>> 3)
def smallSigma1 (x : Nat) : Nat := rotr32 17 x ^^^ rotr32 19 x ^^^ (x >>> 10)
def shaCh (x y z : Nat) : Nat := (x &&& y) ^^^ ((x ^^^ 4294967295) &&& z)
def shaMaj (x y z : Nat) : Nat := (x &&& y) ^^^ (x &&& z) ^^^ (y &&& z)

def shaK : List Nat :=
  [1116352408, 1899447441, 3049323471, 3921009573, 961987163, 1508970993,
   2453635748, 2870763221, 3624381080, 310598401, 607225278, 1426881987,
   1925078388, 2162078206, 2614888103, 3248222580, 3835390401, 4022224774,
   264347078, 604807628, 770255983, 1249150122, 1555081692, 1996064986,
   2554220882, 2821834349, 2952996808, 3210313671, 3336571891, 3584528711,
   113926993, 338241895, 666307205, 773529912, 1294757372, 1396182291,
   1695183700, 1986661051, 2177026350, 2456956037, 2730485921, 2820302411,
   3259730800, 3345764771, 3516065817, 3600352804, 4094571909, 275423344,
   430227734, 506948616, 659060556, 883997877, 958139571, 1322822218,
   1537002063, 1747873779, 1955562222, 2024104815, 2227730452, 2361852424,
   2428436474, 2756734187, 3204031479, 3329325298]

/-- The eight working registers of the compression function. -/
structure Hash8 where
  a : Nat
  b : Nat
  c : Nat
  d : Nat
  e : Nat
  f : Nat
  g : Nat
  h : Nat
deriving DecidableEq

def shaH0 : Hash8 :=
  ⟨1779033703, 3144134277, 1013904242, 2773480762, 1359893119, 2600822924, 528734635, 1541459225⟩

/-- Fuelled fixed-size chunking (`Nat` fuel keeps the recursion structural so
that the kernel can evaluate it). -/
def chunksGo (n : Nat) : Nat → List α → List (List α)
  | _, [] => []
  | 0, _ :: _ => []
  | fuel + 1, c :: rest => (c :: rest).take n :: chunksGo n fuel ((c :: rest).drop n)

/-- Partition a list into consecutive chunks of `n` elements (last chunk may
be shorter). -/
def chunksOf (n : Nat) (l : List α) : List (List α) :=
  chunksGo n l.length l

/-- Big-endian 32-bit word from (up to) four bytes. -/
def word32 (b : List Nat) : Nat :=
  b.getD 0 0 * 16777216 + b.getD 1 0 * 65536 + b.getD 2 0 * 256 + b.getD 3 0

/-- Big-endian bytes of a 32-bit word. -/
def wordBytes (w : Nat) : List Nat :=
  [w / 16777216 % 256, w / 65536 % 256, w / 256 % 256, w % 256]

/-- Big-endian 64-bit length field of the SHA-256 padding. -/
def beBytes8 (n : Nat) : List Nat :=
  [n / 2 ^ 56 % 256, n / 2 ^ 48 % 256, n / 2 ^ 40 % 256, n / 2 ^ 32 % 256,
   n / 2 ^ 24 % 256, n / 2 ^ 16 % 256, n / 2 ^ 8 % 256, n % 256]

/-- SHA-256 padding: `0x80`, zeros to 56 mod 64, then the bit length. -/
def padMessage (msg : List Nat) : List Nat :=
  msg ++ 0x80 :: List.replicate ((64 - (msg.length + 9) % 64) % 64) 0 ++ beBytes8 (msg.length * 8)

/-- Extend the 16 message-schedule words to 64. -/
def extendSchedule : Nat → List Nat → List Nat
  | 0, w => w
  | k + 1, w =>
    extendSchedule k (w ++ [(smallSigma1 (w.getD (w.length - 2) 0) + w.getD (w.length - 7) 0 +
      smallSigma0 (w.getD (w.length - 15) 0) + w.getD (w.length - 16) 0) % M32])

/-- One round of the compression function. -/
def shaRound (s : Hash8) (w k : Nat) : Hash8 :=
  let t1 := (s.h + bigSigma1 s.e + shaCh s.e s.f s.g + k + w) % M32
  let t2 := (bigSigma0 s.a + shaMaj s.a s.b s.c) % M32
  ⟨(t1 + t2) % M32, s.a, s.b, s.c, (s.d + t1) % M32, s.e, s.f, s.g⟩

/-- Process one 64-byte block. -/
def compressBlock (H : Hash8) (block : List Nat) : Hash8 :=
  let ws := extendSchedule 48 ((chunksOf 4 block).map word32)
  let fin := (ws.zip shaK).foldl (fun s wk => shaRound s wk.1 wk.2) H
  ⟨(H.a + fin.a) % M32, (H.b + fin.b) % M32, (H.c + fin.c) % M32, (H.d + fin.d) % M32,
   (H.e + fin.e) % M32, (H.f + fin.f) % M32, (H.g + fin.g) % M32, (H.h + fin.h) % M32⟩

/-- Full SHA-256 digest of a byte list, as 32 bytes. -/
def sha256 (msg : List Nat) : List Nat :=
  let fin := ((chunksOf 64 (padMessage msg)).foldl compressBlock shaH0)
  wordBytes fin.a ++ wordBytes fin.b ++ wordBytes fin.c ++ wordBytes fin.d ++
  wordBytes fin.e ++ wordBytes fin.f ++ wordBytes fin.g ++ wordBytes fin.h

/-- HMAC-SHA-256 (RFC 2104), the algorithm behind
`crypto.subtle.sign('HMAC', …)` with an imported raw key. -/
def hmacSha256 (key msg : List Nat) : List Nat :=
  let k0 := if key.length > 64 then sha256 key else key
  let kpad := k0 ++ List.replicate (64 - k0.length) 0
  sha256 (kpad.map (· ^^^ 0x5c) ++ sha256 (kpad.map (· ^^^ 0x36) ++ msg))

/-! ### UTF-8 and hex encoding -/

/-- UTF-8 encoding of one character (`TextEncoder`). -/
def utf8EncodeCh (c : Char) : List Nat :=
  let v := c.toNat
  if v < 0x80 then [v]
  else if v < 0x800 then [0xC0 ||| (v >>> 6), 0x80 ||| (v &&& 0x3F)]
  else if v < 0x10000 then
    [0xE0 ||| (v >>> 12), 0x80 ||| ((v >>> 6) &&& 0x3F), 0x80 ||| (v &&& 0x3F)]
  else
    [0xF0 ||| (v >>> 18), 0x80 ||| ((v >>> 12) &&& 0x3F), 0x80 ||| ((v >>> 6) &&& 0x3F),
     0x80 ||| (v &&& 0x3F)]

/-- `new TextEncoder().encode(s)`. -/
def utf8Bytes (s : String) : List Nat :=
  s.data.flatMap utf8EncodeCh

/-- Lowercase hex digit for a value below 16. -/
def hexDigit (n : Nat) : Char :=
  if n < 10 then Char.ofNat (48 + n) else Char.ofNat (87 + n)

/-- `b.toString(16).padStart(2, '0')` for a byte (`b < 256`). -/
def hexByte (b : Nat) : List Char :=
  [hexDigit (b / 16 % 16), hexDigit (b % 16)]

/-- Render a byte list as a lowercase hex string
(`hashArray.map(b => b.toString(16).padStart(2, '0')).join('')`). -/
def hexEncode (bytes : List Nat) : List Char :=
  bytes.flatMap hexByte

/-! ### Identity-tag codec (`generateUserIdSignature` … `extractUserChatId`) -/

/-- `generateUserIdSignature(userId, secret)`: HMAC-SHA-256 of `user:<id>`
under `secret`, lowercase hex truncated to 16 characters; with no secret, a
plain SHA-256 of `user:<id>:fallback` truncated the same way. -/
def generateUserIdSignature (userId : String) (secret : String) : String :=
  if secret = "" then
    String.mk ((hexEncode (sha256 (utf8Bytes ("user:" ++ userId ++ ":fallback")))).take 16)
  else
    String.mk ((hexEncode (hmacSha256 (utf8Bytes secret) (utf8Bytes ("user:" ++ userId)))).take 16)

/-- `verifyUserIdSignature(userId, signature, secret)`. -/
def verifyUserIdSignature (userId signature secret : String) : Bool :=
  signature == generateUserIdSignature userId secret

/-- `createSecureUserTag(userId, secret)` = `[USER:<id>:<signature>]`. -/
def createSecureUserTag (userId : String) (secret : String) : String :=
  "[USER:" ++ userId ++ ":" ++ generateUserIdSignature userId secret ++ "]"

/-- Character class `[a-f0-9]` of the signed-tag pattern. -/
def isHexLower (c : Char) : Bool :=
  c.isDigit || ('a' ≤ c && c ≤ 'f')

/-- Character class `[:\w]` of the legacy pattern's negative lookahead
(`\w` = `[A-Za-z0-9_]`). -/
def isWordOrColon (c : Char) : Bool :=
  c = ':' || c.isDigit || ('a' ≤ c && c ≤ 'z') || ('A' ≤ c && c ≤ 'Z') || c = '_'

/--
Match of `/\[USER:(\d+):([a-f0-9]{16})\]/` anchored at the head of the list,
returning the two capture groups.  Because `\d+` is followed by `:` (not a
digit) and `[a-f0-9]{16}` has fixed length, the JavaScript backtracking
engine can only succeed on the maximal digit run, which is what this
function takes.
-/
def matchSecureAt : List Char → Option (List Char × List Char)
  | '[' :: 'U' :: 'S' :: 'E' :: 'R' :: ':' :: rest =>
    let ds := rest.takeWhile Char.isDigit
    match rest.dropWhile Char.isDigit with
    | ':' :: rest3 =>
      if ds.isEmpty then none
      else if (rest3.take 16).length = 16 && (rest3.take 16).all isHexLower then
        match rest3.drop 16 with
        | ']' :: _ => some (ds, rest3.take 16)
        | _ => none
      else none
    | _ => none
  | _ => none

/-- Leftmost match of the signed-tag pattern (`messageText.match(...)`). -/
def findSecure : List Char → Option (List Char × List Char)
  | [] => none
  | c :: rest =>
    match matchSecureAt (c :: rest) with
    | some r => some r
    | none => findSecure rest

/-- Match of `/\[USER:(\d+)\](?![:\w])/` anchored at the head of the list. -/
def matchLegacyAt : List Char → Option (List Char)
  | '[' :: 'U' :: 'S' :: 'E' :: 'R' :: ':' :: rest =>
    let ds := rest.takeWhile Char.isDigit
    match rest.dropWhile Char.isDigit with
    | ']' :: after =>
      if ds.isEmpty then none
      else
        match after with
        | [] => some ds
        | c :: _ => if isWordOrColon c then none else some ds
    | _ => none
  | _ => none

/-- Leftmost match of the legacy pattern. -/
def findLegacy : List Char → Option (List Char)
  | [] => none
  | c :: rest =>
    match matchLegacyAt (c :: rest) with
    | some r => some r
    | none => findLegacy rest

/--
`extractUserChatId(messageText, secret)`: reject falsy text; find a signed
tag and return its identifier only when the signature re-verifies; otherwise
fall back to the legacy unsigned pattern (the source's `!secureMatch` guard
is vacuous there because that branch is only reached with no signed match).
-/
def extractUserChatId (messageText : Option String) (secret : String) : Option String :=
  match messageText with
  | none => none
  | some t =>
    if t = "" then none
    else
      match findSecure t.data with
      | some (ds, sig) =>
        if verifyUserIdSignature (String.mk ds) (String.mk sig) secret then
          some (String.mk ds)
        else
          none
      | none =>
        match findLegacy t.data with
        | some ds => some (String.mk ds)
        | none => none

/-! ### Broadcast command parser (`parsePostTargets`) -/

/-- Target specification returned by `parsePostTargets`: the literal string
`'all'` or an array of identifier strings. -/
inductive Targets where
  | all : Targets
  | ids : List String → Targets
deriving DecidableEq

/-- `/^\d+$/.test(id)`. -/
def isNumericStr (s : String) : Bool :=
  !s.data.isEmpty && s.data.all Char.isDigit

/--
`parsePostTargets(commandText)`: split on single spaces; fewer than two
segments is malformed; first segment `all` is the sentinel; otherwise the
first segment is split on commas, trimmed, and filtered to digit-only
pieces.  The remainder (`parts.slice(1).join(' ')`) is the payload.
-/
def parsePostTargets (commandText : String) : Targets × String :=
  if commandText = "" then (.ids [], "")
  else
    let parts := splitChar ' ' commandText.data
    if parts.length < 2 then (.ids [], "")
    else
      let targetsStr := parts.headD []
      let message := String.mk (joinSep ' ' parts.tail)
      if targetsStr = "all".data then (.all, message)
      else
        (.ids (((splitChar ',' targetsStr).map (fun p => String.mk (jsTrim p))).filter
          isNumericStr), message)

/-! ### Recipient directory (`getUsersFromKV` / `addUserToKV`) -/

/-- One stored recipient record.  `lastActive` is the stored timestamp in
milliseconds (the source stores an ISO string and compares via
`new Date(·).getTime()`, which is order-isomorphic to the raw number). -/
structure UserData where
  chatId : Int
  userName : String
  userId : Int
  lastActive : Nat
deriving DecidableEq

/-- Environment and bound storage of the worker. -/
structure Env where
  adminId : String
  tracking : Bool
  hasStorage : Bool
  kv : List UserData
  secret : String

/-- `getUsersFromKV(env)`: the parsed `user_list` value, `[]` when no KV
binding is configured. -/
def getUsersFromKV (env : Env) : List UserData :=
  if env.hasStorage then env.kv else []

/-- Descending-recency comparison used by `users.sort((a, b) => new
Date(b.lastActive).getTime() - new Date(a.lastActive).getTime())`;
JavaScript's sort is stable, as is `List.mergeSort`. -/
def recGE (a b : UserData) : Bool :=
  b.lastActive ≤ a.lastActive

/-- The record object built inside `addUserToKV`. -/
def newUserData (chatId : Int) (userName : String) (userId : Int) (now : Nat) : UserData :=
  ⟨chatId, userName, userId, now⟩

/--
The list transformation of `addUserToKV`: upsert by `chatId` (replace the
first record with that id, else append), then, if the list exceeds 1000
records, sort by descending recency and keep the first 1000
(`sort` + `splice(1000)`).
-/
def addUserToKV (chatId : Int) (userName : String) (userId : Int) (users : List UserData)
    (now : Nat) : List UserData :=
  let userData := newUserData chatId userName userId now
  let users' :=
    match users.findIdx? (fun u => u.chatId = chatId) with
    | some i => users.set i userData
    | none => users ++ [userData]
  if users'.length > 1000 then (users'.mergeSort recGE).take 1000 else users'

/-! ### Transport effects and broadcast fan-out (`broadcastMessage`) -/

/-- One outbound call the worker issues.  `sendMsg` is `sendMessage`,
`copyMsg` is `copyMessage` (target, source chat, source message id, caption
override), `kvPut` is `USER_STORAGE.put('user_list', …)`, and `delay` is the
inter-batch `setTimeout` pause. -/
inductive Effect where
  | sendMsg (chatId : String) (text : String) (replyTo : Option Nat)
  | copyMsg (chatId : String) (fromChatId : String) (messageId : Nat) (caption : Option String)
  | kvPut (users : List UserData)
  | delay (ms : Nat)
deriving DecidableEq

/-- Aggregate result of `broadcastMessage`. -/
structure BResult where
  success : Nat
  failed : Nat
  errors : List String
deriving DecidableEq

/-- The delivery attempted for one recipient: a text send or a media copy
with the broadcast caption. -/
def broadcastAttempt (isMedia : Bool) (adminId : String) (mediaMessageId : Nat)
    (message : String) (chatId : String) : Effect :=
  if isMedia then
    .copyMsg chatId adminId mediaMessageId (some ("📢 *管理员广播:*\n\n" ++ message))
  else
    .sendMsg chatId ("📢 *管理员广播:*\n\n" ++ message) none

/-- Per-recipient delivery outcome oracle: `none` is success, `some m` is a
thrown error with message `m` (`Promise.allSettled` makes the counts
independent of scheduling order, so the batch is folded in list order). -/
def processBatch (oracle : String → Option String) (batch : List String) (r : BResult) :
    BResult :=
  batch.foldl
    (fun r chatId =>
      match oracle chatId with
      | none => { r with success := r.success + 1 }
      | some m =>
        { r with failed := r.failed + 1, errors := r.errors ++ ["用户 " ++ chatId ++ ": " ++ m] })
    r

/-- The batched loop of `broadcastMessage`: settle a whole batch, then a
100 ms delay whenever more targets remain (`i + batchSize < length`). -/
def runBatches (oracle : String → Option String) (mk : String → Effect) :
    List (List String) → BResult → BResult × List Effect
  | [], r => (r, [])
  | [b], r => (processBatch oracle b r, b.map mk)
  | b :: b' :: bs, r =>
    let r' := processBatch oracle b r
    let (r'', tr) := runBatches oracle mk (b' :: bs) r'
    (r'', b.map mk ++ Effect.delay 100 :: tr)

/--
`broadcastMessage(userIds, message, env, isMedia, mediaOptions)`: resolve
`'all'` through the directory (synthetic failure when it is empty), reject
an empty explicit list, then fan out in batches of 10.  Returns the result
object and the outbound call trace.
-/
def broadcastMessage (userIds : Targets) (message : String) (env : Env) (isMedia : Bool)
    (mediaMessageId : Nat) (oracle : String → Option String) : BResult × List Effect :=
  let targetUserIds :=
    match userIds with
    | .all => (getUsersFromKV env).map (fun u => toString u.chatId)
    | .ids l => l
  match userIds with
  | .all =>
    if targetUserIds.isEmpty then
      (⟨0, 1, ["未找到可广播的用户，请确保已启用用户跟踪功能"]⟩, [])
    else
      runBatches oracle (broadcastAttempt isMedia env.adminId mediaMessageId message)
        (chunksOf 10 targetUserIds) ⟨0, 0, []⟩
  | .ids _ =>
    if targetUserIds.isEmpty then
      (⟨0, 1, ["未指定有效的用户ID"]⟩, [])
    else
      runBatches oracle (broadcastAttempt isMedia env.adminId mediaMessageId message)
        (chunksOf 10 targetUserIds) ⟨0, 0, []⟩

/-! ### End-user branch (`createUserInfo` / `handleUserMessage`) -/

/-- The fields of an inbound Telegram message the worker reads. -/
structure Msg where
  text : Option String
  caption : Option String
  message_id : Nat
  fromUsername : Option String
  fromFirstName : Option String
  fromId : Int
  chatId : Int

/-- The quoted message of an admin reply. -/
structure RepliedMsg where
  text : Option String
  caption : Option String
  message_id : Nat

/-- An admin message: the same fields plus the optional
`reply_to_message`. -/
structure AdminMsg where
  text : Option String
  caption : Option String
  message_id : Nat
  reply_to : Option RepliedMsg

/-- `from.username || from.first_name || 'Unknown'`. -/
def displayName (m : Msg) : String :=
  (jsOrStr m.fromUsername (jsOrStr m.fromFirstName (some "Unknown"))).getD "Unknown"

/-- The header block of `createUserInfo`; `timeStr` stands for the rendered
local time (`new Date().toLocaleString(...)`). -/
def userHeader (m : Msg) (timeStr : String) : String :=
  "📩 *来自用户: " ++ displayName m ++ "*\n🆔 ID: `" ++ toString m.fromId ++
    "`\n⏰ 时间: " ++ timeStr ++ "\n────────────────────"

/-- Welcome reply sent to an end-user's `/start`. -/
def welcomeText : String :=
  "👋 你好！我是消息转发机器人。\n\n请发送你的消息，我会转发给管理员并尽快回复你。"

/-- Body of the text relay forwarded to the admin. -/
def forwardTextBody (m : Msg) (timeStr tag : String) : String :=
  userHeader m timeStr ++ "\n📝 *消息内容:*\n" ++ (m.text.getD "") ++ "\n\n`" ++ tag ++ "`"

/-- Caption of the media copy forwarded to the admin. -/
def forwardCaption (m : Msg) (timeStr tag : String) : String :=
  userHeader m timeStr ++ "\n" ++
    (match m.caption with
     | some c => if c = "" then "" else "📝 *说明:* " ++ c ++ "\n\n"
     | none => "") ++ "`" ++ tag ++ "`"

/--
`handleUserMessage(message, env)` on its non-throwing paths: upsert the
recipient record (tracking enabled and storage bound) — note this happens
*before* the `/start` check — then either answer `/start` with the fixed
welcome, or forward the message to the admin with the signed tag appended
and, when the transport reports `ok`, confirm to the user.  Returns the
outbound call trace and the directory contents after the update.
-/
def handleUserMessage (m : Msg) (env : Env) (now : Nat) (timeStr : String)
    (forwardOk : Bool) : List Effect × List UserData :=
  let tracked := env.tracking && env.hasStorage
  let kv' := if tracked then addUserToKV m.chatId (displayName m) m.fromId env.kv now else env.kv
  let kvEff : List Effect := if tracked then [.kvPut kv'] else []
  if m.text = some "/start" then
    (kvEff ++ [.sendMsg (toString m.chatId) welcomeText none], kv')
  else
    let tag := createSecureUserTag (toString m.chatId) env.secret
    let fwd : Effect :=
      if jsTruthy m.text then
        .sendMsg env.adminId (forwardTextBody m timeStr tag) none
      else
        .copyMsg env.adminId (toString m.chatId) m.message_id (some (forwardCaption m timeStr tag))
    let confirm : List Effect :=
      if forwardOk then [.sendMsg (toString m.chatId) "✅ 你的消息已发送给管理员，请耐心等待回复。" none] else []
    (kvEff ++ fwd :: confirm, kv')

/-! ### Admin branch (`handleAdminMessage`) -/

/-- `/start` admin panel text. -/
def adminPanelText (tracking : Bool) : String :=
  "🔧 *管理员面板*\n\n👋 欢迎使用消息转发机器人管理面板！\n\n📋 *可用命令:*\n• `/status` - 查看机器人状态\n• `/help` - 显示帮助信息\n• `/post` - 群发消息功能\n• `/users` - 查看用户列表（需启用用户跟踪）\n\n💡 *使用说明:*\n• 直接回复用户消息即可回复给对应用户\n• 使用 /post 命令进行消息群发\n\n📊 *系统状态:*\n• 用户跟踪: " ++
    (if tracking then "🟢 已启用" else "🔴 未启用") ++ "\n\n🤖 机器人已就绪，等待用户消息..."

/-- `/status` reply; `nowStr` stands for the rendered query time. -/
def statusText (env : Env) (nowStr : String) : String :=
  "📊 *机器人状态*\n\n🟢 状态: 运行中\n🔄 模式: 无状态转发\n👥 已跟踪用户: " ++
    (if env.tracking then toString (getUsersFromKV env).length else "未启用跟踪") ++
    "\n⏰ 查询时间: " ++ nowStr

/-- `/help` reply. -/
def helpText : String :=
  "❓ *帮助信息*\n\n🔄 *回复用户:*\n直接回复用户的消息即可发送回复给对应用户\n\n📢 *群发消息:*\n• `/post all 消息内容` - 向所有用户群发（需启用用户跟踪）\n• `/post 123,456,789 消息内容` - 向指定用户群发\n• 回复媒体消息并使用 /post 命令可群发媒体\n\n👥 *用户管理:*\n• `/users` - 查看已跟踪的用户列表\n\n📝 *消息格式:*\n• 支持文本、图片、文件等各种消息类型\n• 支持Markdown格式\n\n⚙️ *命令列表:*\n• `/start` - 显示欢迎信息\n• `/status` - 查看机器人状态\n• `/help` - 显示此帮助信息\n• `/post` - 群发消息功能\n• `/users` - 查看用户列表"

/-- `/post` usage help (empty command text). -/
def postUsageText : String :=
  "📢 *群发功能使用说明*\n\n🎯 *命令格式:*\n• `/post all 消息内容` - 向所有用户群发\n• `/post 123,456,789 消息内容` - 向指定用户群发\n\n💡 *示例:*\n• `/post all 系统维护通知：今晚22:00-23:00进行维护`\n• `/post 123456789,987654321 您好，这是一条测试消息`\n\n📎 *群发媒体:*\n回复包含图片/文件的消息，然后使用 /post 命令\n\n⚠️ *注意:*\n• 使用 'all' 需要启用用户跟踪功能\n• 手动指定用户ID时，请用英文逗号分隔\n• 群发会自动限速以避免API限制"

/-- Completion report of a text broadcast. -/
def reportText (r : BResult) : String :=
  "📊 *群发完成报告*\n\n✅ 成功: " ++ toString r.success ++ "\n❌ 失败: " ++ toString r.failed ++
    "\n\n" ++
    (if r.errors.length > 0 then
      "🔍 *错误详情:*\n" ++ String.intercalate "\n" (r.errors.take 5) ++
        (if r.errors.length > 5 then "\n... 还有 " ++ toString (r.errors.length - 5) ++ " 个错误"
         else "")
     else "🎉 全部发送成功！")

/-- Does the (possibly missing) text start with `/post`? -/
def textStartsPost (t : Option String) : Bool :=
  match t with
  | some s => "/post".data.isPrefixOf s.data
  | none => false

/-- `message.text.substring(5).trim()`. -/
def postCommandText (t : String) : String :=
  String.mk (jsTrim (t.data.drop 5))

/-- The `/post` text-broadcast branch (source lines 365-422). -/
def postBranch (msg : AdminMsg) (env : Env) (oracle : String → Option String) : List Effect :=
  let t := msg.text.getD ""
  let commandText := postCommandText t
  if commandText = "" then [.sendMsg env.adminId postUsageText (some msg.message_id)]
  else
    let parsed := parsePostTargets commandText
    if parsed.2 = "" then
      [.sendMsg env.adminId "❌ 请提供要群发的消息内容" (some msg.message_id)]
    else if parsed.1 = .all && !env.tracking then
      [.sendMsg env.adminId
        "❌ 使用 'all' 群发需要启用用户跟踪功能\n\n请设置环境变量 `ENABLE_USER_TRACKING=true` 并绑定KV存储"
        (some msg.message_id)]
    else if parsed.1 = .ids [] then
      [.sendMsg env.adminId "❌ 未找到有效的用户ID\n\n请检查格式: `/post 123,456,789 消息内容`"
        (some msg.message_id)]
    else
      let targetCount :=
        match parsed.1 with
        | .all => (getUsersFromKV env).length
        | .ids l => l.length
      let br := broadcastMessage parsed.1 parsed.2 env false 0 oracle
      .sendMsg env.adminId
          ("🚀 开始群发消息...\n\n📊 目标用户数: " ++ toString targetCount ++ "\n⏳ 请稍候...")
          (some msg.message_id) ::
        br.2 ++ [.sendMsg env.adminId (reportText br.1) none]

/-- `rep.text?.includes('[USER:') || rep.caption?.includes('[USER:')`. -/
def hasUserTag (rep : RepliedMsg) : Bool :=
  (match rep.text with
   | some s => containsSub "[USER:".data s.data
   | none => false) ||
  (match rep.caption with
   | some s => containsSub "[USER:".data s.data
   | none => false)

/-- The reply-handling branch (source lines 459-537): media broadcast when
the admin text is a `/post` command and the quoted message carries no user
tag, otherwise a routed reply through `extractUserChatId`. -/
def replyBranch (msg : AdminMsg) (rep : RepliedMsg) (env : Env)
    (oracle : String → Option String) (replyOk : Bool) (replyDesc : Option String) :
    List Effect :=
  if textStartsPost msg.text && !hasUserTag rep then
    let commandText := postCommandText (msg.text.getD "")
    let parsed := parsePostTargets commandText
    if parsed.2 = "" then
      [.sendMsg env.adminId "❌ 请提供要群发的消息内容" (some msg.message_id)]
    else
      let targetCount :=
        match parsed.1 with
        | .all => (getUsersFromKV env).length
        | .ids l => l.length
      let br := broadcastMessage parsed.1 parsed.2 env true rep.message_id oracle
      .sendMsg env.adminId ("🚀 开始群发媒体消息...\n\n📊 目标用户数: " ++ toString targetCount)
          (some msg.message_id) ::
        br.2 ++
        [.sendMsg env.adminId
          ("📊 *媒体群发完成*\n\n✅ 成功: " ++ toString br.1.success ++ "\n❌ 失败: " ++
            toString br.1.failed) none]
  else
    match extractUserChatId (jsOrStr rep.text rep.caption) env.secret with
    | none =>
      [.sendMsg env.adminId "⚠️ 无法识别用户信息。请回复带有用户标识的转发消息。" (some msg.message_id)]
    | some uid =>
      let replyEff : Effect :=
        if jsTruthy msg.text then
          .sendMsg uid ("💬 *管理员回复:*\n\n" ++ msg.text.getD "") none
        else
          .copyMsg uid env.adminId msg.message_id
            (some
              (match msg.caption with
               | some c => if c = "" then "💬 *管理员回复:*" else "💬 *管理员回复:*\n\n" ++ c
               | none => "💬 *管理员回复:*"))
      replyEff ::
        (if replyOk then
          [.sendMsg env.adminId ("✅ 回复已发送给用户 (ID: " ++ uid ++ ")") (some msg.message_id)]
         else
          [.sendMsg env.adminId ("❌ 回复发送失败: " ++ (jsOrStr replyDesc (some "未知错误")).getD "未知错误")
            (some msg.message_id)])

/-- `/users` branch; `fmtTime` stands for `toLocaleString` rendering of a
stored timestamp. -/
def usersBranch (env : Env) (fmtTime : Nat → String) : List Effect :=
  if !env.tracking then
    [.sendMsg env.adminId
      "❌ 用户跟踪功能未启用\n\n请设置环境变量 `ENABLE_USER_TRACKING=true` 并绑定KV存储" none]
  else
    let users := getUsersFromKV env
    if users.isEmpty then
      [.sendMsg env.adminId "📭 暂无用户记录\n\n用户首次发送消息后会自动记录" none]
    else
      let recent := (users.mergeSort recGE).take 20
      let userList :=
        String.intercalate "\n\n"
          (recent.enum.map fun p =>
            toString (p.1 + 1) ++ ". " ++ p.2.userName ++ "\n   ID: `" ++ toString p.2.chatId ++
              "`\n   最后活跃: " ++ fmtTime p.2.lastActive)
      [.sendMsg env.adminId
        ("👥 *用户列表* (最近 " ++ toString recent.length ++ "/" ++ toString users.length ++
          ")\n\n" ++ userList ++ (if users.length > 20 then "\n\n..." else "")) none]

/--
`handleAdminMessage(message, env)`: command dispatch in source order —
`/start`, `/status`, `/help`, any text starting with `/post` (which
therefore returns before the reply-handling block is ever reached),
`/users`, then reply handling, then the generic hint.
-/
def handleAdminMessage (msg : AdminMsg) (env : Env) (oracle : String → Option String)
    (replyOk : Bool) (replyDesc : Option String) (nowStr : String) (fmtTime : Nat → String) :
    List Effect :=
  if msg.text = some "/start" then [.sendMsg env.adminId (adminPanelText env.tracking) none]
  else if msg.text = some "/status" then [.sendMsg env.adminId (statusText env nowStr) none]
  else if msg.text = some "/help" then [.sendMsg env.adminId helpText none]
  else if textStartsPost msg.text then postBranch msg env oracle
  else if msg.text = some "/users" then usersBranch env fmtTime
  else
    match msg.reply_to with
    | some rep => replyBranch msg rep env oracle replyOk replyDesc
    | none =>
      [.sendMsg env.adminId
        "💡 *提示:* 请回复具体的用户消息来发送回复，或使用群发命令。\n\n📢 群发: `/post all 消息内容`\n❓ 帮助: `/help`"
        (some msg.message_id)]

/-! ## Helper lemmas: split / join -/

theorem splitChar_ne_nil (sep : Char) (l : List Char) : splitChar sep l ≠ [] := by
  cases l with
  | nil => simp [splitChar]
  | cons c rest =>
    simp only [splitChar]
    cases h : splitChar sep rest with
    | nil => simp
    | cons p ps =>
      by_cases hc : c = sep <;> simp [hc]

theorem splitChar_sepfree (sep : Char) (xs : List Char) (hx : ∀ c ∈ xs, c ≠ sep) :
    splitChar sep xs = [xs] := by
  induction xs with
  | nil => rfl
  | cons c rest ih =>
    have hc : c ≠ sep := hx c (by simp)
    have hrest : ∀ c ∈ rest, c ≠ sep := fun c hcm => hx c (by simp [hcm])
    simp only [splitChar, ih hrest]
    simp [hc]

theorem splitChar_append (sep : Char) (xs ys : List Char) (hx : ∀ c ∈ xs, c ≠ sep) :
    splitChar sep (xs ++ sep :: ys) = xs :: splitChar sep ys := by
  induction xs with
  | nil =>
    simp only [List.nil_append, splitChar]
    cases h : splitChar sep ys with
    | nil => exact absurd h (splitChar_ne_nil sep ys)
    | cons p ps => simp
  | cons c rest ih =>
    have hc : c ≠ sep := hx c (by simp)
    have hrest : ∀ c ∈ rest, c ≠ sep := fun c hcm => hx c (by simp [hcm])
    simp only [List.cons_append, splitChar, List.append_eq]
    rw [ih hrest]
    simp [hc]

theorem joinSep_splitChar (sep : Char) (l : List Char) :
    joinSep sep (splitChar sep l) = l := by
  induction l with
  | nil => rfl
  | cons c rest ih =>
    simp only [splitChar]
    cases h : splitChar sep rest with
    | nil => exact absurd h (splitChar_ne_nil sep rest)
    | cons p ps =>
      rw [h] at ih
      by_cases hc : c = sep
      · subst hc
        simpa [joinSep] using ih
      · simp only [if_neg hc]
        cases ps with
        | nil => simpa [joinSep] using ih
        | cons q qs => simpa [joinSep] using ih

theorem string_mk_data (s : String) : String.mk s.data = s := rfl

theorem string_mk_eq_empty_iff (l : List Char) : String.mk l = "" ↔ l = [] := by
  constructor
  · intro h
    have : (String.mk l).data = ("" : String).data := by rw [h]
    simpa using this
  · intro h; subst h; rfl

/-! ## C6: `parsePostTargets` -/

/--
**C6.** `parsePostTargets` returns an empty target list and empty payload on
fewer than two space-delimited segments; maps a first token `all` to the
sentinel with the remainder as payload; and otherwise splits the first token
on commas, trims each piece, and keeps exactly the all-digit pieces,
returning the (space-containing) remainder as the payload.  The last four
conjuncts are the spec's concrete test vectors.
-/
theorem parsePostTargets_spec :
    (∀ ct : String, (splitChar ' ' ct.data).length < 2 → parsePostTargets ct = (.ids [], "")) ∧
    (∀ rest : List Char,
      parsePostTargets (String.mk ('a' :: 'l' :: 'l' :: ' ' :: rest)) = (.all, String.mk rest)) ∧
    (∀ first rest : List Char, first ≠ [] → (∀ c ∈ first, c ≠ ' ') → first ≠ "all".data →
      parsePostTargets (String.mk (first ++ ' ' :: rest)) =
        (.ids (((splitChar ',' first).map (fun p => String.mk (jsTrim p))).filter isNumericStr),
         String.mk rest)) ∧
    parsePostTargets "all hello world" = (.all, "hello world") ∧
    parsePostTargets "123,456 ping" = (.ids ["123", "456"], "ping") ∧
    parsePostTargets "abc,123 hi" = (.ids ["123"], "hi") ∧
    parsePostTargets "onlytargets" = (.ids [], "") := by
  refine ⟨?_, ?_, ?_, by decide, by decide, by decide, by decide⟩
  · intro ct hlen
    by_cases h : ct = ""
    · simp [parsePostTargets, h]
    · simp [parsePostTargets, h, hlen]
  · intro rest
    have hne : String.mk ('a' :: 'l' :: 'l' :: ' ' :: rest) ≠ "" := by
      intro h; exact absurd ((string_mk_eq_empty_iff _).mp h) (by simp)
    have hsplit : splitChar ' ' ('a' :: 'l' :: 'l' :: ' ' :: rest) =
        ['a', 'l', 'l'] :: splitChar ' ' rest := by
      have := splitChar_append ' ' ['a', 'l', 'l'] rest (by decide)
      simpa using this
    have hpos : 0 < (splitChar ' ' rest).length :=
      List.length_pos.mpr (splitChar_ne_nil ' ' rest)
    have hlen : ¬((splitChar ' ' rest).length + 1 < 2) := by omega
    simp [parsePostTargets, hne, hsplit, hlen, hpos, joinSep_splitChar]
  · intro first rest hfe hfs hfa
    have hne : String.mk (first ++ ' ' :: rest) ≠ "" := by
      intro h
      have := (string_mk_eq_empty_iff _).mp h
      simp at this
    have hsplit : splitChar ' ' (first ++ ' ' :: rest) = first :: splitChar ' ' rest :=
      splitChar_append ' ' first rest hfs
    have hpos : 0 < (splitChar ' ' rest).length :=
      List.length_pos.mpr (splitChar_ne_nil ' ' rest)
    have hlen : ¬((splitChar ' ' rest).length + 1 < 2) := by omega
    simp [parsePostTargets, hne, hsplit, hlen, hpos, joinSep_splitChar, hfa]

/-- Witness for C6 at concrete inputs. -/
theorem parsePostTargets_spec_witness :
    parsePostTargets (String.mk ("7,x8".data ++ ' ' :: "pay load".data)) =
      (.ids (((splitChar ',' "7,x8".data).map (fun p => String.mk (jsTrim p))).filter
        isNumericStr), String.mk "pay load".data) :=
  parsePostTargets_spec.2.2.1 "7,x8".data "pay load".data (by decide) (by decide) (by decide)

/-! ## Helper lemmas: broadcast fan-out -/

/-- The diagnostic a target contributes when its delivery fails. -/
def diag (oracle : String → Option String) (id : String) : Option String :=
  (oracle id).map (fun m => "用户 " ++ id ++ ": " ++ m)

theorem processBatch_spec (oracle : String → Option String) :
    ∀ (batch : List String) (r : BResult),
      (processBatch oracle batch r).success + (processBatch oracle batch r).failed =
        r.success + r.failed + batch.length ∧
      (processBatch oracle batch r).errors = r.errors ++ batch.filterMap (diag oracle) ∧
      (processBatch oracle batch r).failed =
        r.failed + (batch.filterMap (diag oracle)).length
  | [], r => by simp [processBatch]
  | id :: rest, r => by
    cases h : oracle id with
    | none =>
      have ih := processBatch_spec oracle rest { r with success := r.success + 1 }
      have hd : diag oracle id = none := by simp [diag, h]
      simp only [processBatch, List.foldl_cons, h] at ih ⊢
      refine ⟨?_, ?_, ?_⟩
      · rw [ih.1]; simp; omega
      · rw [ih.2.1, List.filterMap_cons_none hd]
      · rw [ih.2.2, List.filterMap_cons_none hd]
    | some m =>
      have ih := processBatch_spec oracle rest
        { r with failed := r.failed + 1, errors := r.errors ++ ["用户 " ++ id ++ ": " ++ m] }
      have hd : diag oracle id = some ("用户 " ++ id ++ ": " ++ m) := by simp [diag, h]
      simp only [processBatch, List.foldl_cons, h] at ih ⊢
      refine ⟨?_, ?_, ?_⟩
      · rw [ih.1]; simp; omega
      · rw [ih.2.1, List.filterMap_cons_some hd]; simp
      · rw [ih.2.2, List.filterMap_cons_some hd]; simp; omega

theorem intercalate_cons_cons (sep : List α) (a b : List α) (bs : List (List α)) :
    List.intercalate sep (a :: b :: bs) = a ++ sep ++ List.intercalate sep (b :: bs) := by
  simp [List.intercalate]

theorem runBatches_spec (oracle : String → Option String) (mk : String → Effect) :
    ∀ (bs : List (List String)) (r : BResult),
      ((runBatches oracle mk bs r).1.success + (runBatches oracle mk bs r).1.failed =
        r.success + r.failed + (bs.map List.length).sum) ∧
      ((runBatches oracle mk bs r).1.errors =
        r.errors ++ bs.flatten.filterMap (diag oracle)) ∧
      ((runBatches oracle mk bs r).1.failed =
        r.failed + (bs.flatten.filterMap (diag oracle)).length) ∧
      ((runBatches oracle mk bs r).2 =
        List.intercalate [Effect.delay 100] (bs.map (fun b => b.map mk)))
  | [], r => by simp [runBatches, List.intercalate]
  | [b], r => by
    have h := processBatch_spec oracle b r
    simp only [runBatches]
    refine ⟨by simpa using h.1, by simpa using h.2.1, by simpa using h.2.2, ?_⟩
    simp [List.intercalate]
  | b :: b' :: bs, r => by
    have hpb := processBatch_spec oracle b r
    have ih := runBatches_spec oracle mk (b' :: bs) (processBatch oracle b r)
    simp only [runBatches]
    refine ⟨?_, ?_, ?_, ?_⟩
    · simp only [ih.1, List.map_cons, List.sum_cons]
      omega
    · simp [ih.2.1, hpb.2.1, List.filterMap_append]
    · simp only [ih.2.2.1, hpb.2.2]
      simp [List.filterMap_append]
      omega
    · simp only [List.map_cons] at ih ⊢
      rw [intercalate_cons_cons]
      simp only [ih.2.2.2, List.map_cons]
      simp

theorem chunksGo_fuel_irrel (n : Nat) (hn : n ≠ 0) :
    ∀ (fuel₁ fuel₂ : Nat) (l : List α), l.length ≤ fuel₁ → l.length ≤ fuel₂ →
      chunksGo n fuel₁ l = chunksGo n fuel₂ l
  | f₁, f₂, [], _, _ => by cases f₁ <;> cases f₂ <;> rfl
  | 0, _, c :: rest, h₁, _ => by simp at h₁
  | _ + 1, 0, c :: rest, _, h₂ => by simp at h₂
  | fuel₁ + 1, fuel₂ + 1, c :: rest, h₁, h₂ => by
    simp only [chunksGo]
    have hlen : ((c :: rest).drop n).length ≤ fuel₁ ∧ ((c :: rest).drop n).length ≤ fuel₂ := by
      simp only [List.length_drop, List.length_cons] at *
      omega
    rw [chunksGo_fuel_irrel n hn fuel₁ fuel₂ ((c :: rest).drop n) hlen.1 hlen.2]

theorem chunksOf_nil (n : Nat) : chunksOf n ([] : List α) = [] := by
  simp [chunksOf, chunksGo]

theorem chunksOf_cons (n : Nat) (hn : n ≠ 0) (c : α) (rest : List α) :
    chunksOf n (c :: rest) = (c :: rest).take n :: chunksOf n ((c :: rest).drop n) := by
  simp only [chunksOf, List.length_cons, chunksGo]
  congr 1
  exact chunksGo_fuel_irrel n hn rest.length ((c :: rest).drop n).length ((c :: rest).drop n)
    (by simp; omega) (le_refl _)

theorem chunksOf_flatten (n : Nat) (hn : n ≠ 0) :
    ∀ l : List α, (chunksOf n l).flatten = l
  | [] => by simp [chunksOf_nil]
  | c :: rest => by
    rw [chunksOf_cons n hn]
    have : ((c :: rest).drop n).length < (c :: rest).length := by
      simp only [List.length_drop, List.length_cons]
      omega
    simp [chunksOf_flatten n hn ((c :: rest).drop n)]
  termination_by l => l.length
  decreasing_by
    simp only [List.length_drop, List.length_cons]
    omega

theorem chunksOf_sizes (n : Nat) (hn : n ≠ 0) :
    ∀ l : List α, ∀ b ∈ chunksOf n l, b.length ≤ n ∧ b ≠ []
  | [] => by simp [chunksOf_nil]
  | c :: rest => by
    rw [chunksOf_cons n hn]
    intro b hb
    rcases List.mem_cons.mp hb with h | h
    · subst h
      constructor
      · simp
      · cases n with
        | zero => exact absurd rfl hn
        | succ m => simp [List.take_cons]
    · exact chunksOf_sizes n hn ((c :: rest).drop n) b h
  termination_by l => l.length
  decreasing_by
    simp only [List.length_drop, List.length_cons]
    omega

theorem chunksOf_length_ten :
    ∀ l : List α, (chunksOf 10 l).length = (l.length + 9) / 10
  | [] => by simp [chunksOf_nil]
  | c :: rest => by
    rw [chunksOf_cons 10 (by norm_num)]
    have ih := chunksOf_length_ten ((c :: rest).drop 10)
    simp only [List.length_cons, List.length_drop] at *
    rw [ih]
    rcases Nat.lt_or_ge (rest.length + 1) 11 with h | h
    · have h1 : rest.length + 1 - 10 + 9 < 10 := by omega
      rw [Nat.div_eq_of_lt h1]
      have h2 : (rest.length + 1 + 9) / 10 = 1 :=
        Nat.div_eq_of_lt_le (by omega) (by omega)
      omega
    · have : rest.length + 1 - 10 + 9 + 10 = rest.length + 1 + 9 := by omega
      calc (rest.length + 1 - 10 + 9) / 10 + 1
          = (rest.length + 1 - 10 + 9 + 10) / 10 := by rw [Nat.add_div_right _ (by norm_num)]
        _ = (rest.length + 1 + 9) / 10 := by rw [this]
  termination_by l => l.length
  decreasing_by
    simp only [List.length_drop, List.length_cons]
    omega

theorem filter_delay_intercalate :
    ∀ bss : List (List Effect), (∀ b ∈ bss, ∀ e ∈ b, e ≠ Effect.delay 100) →
      ((List.intercalate [Effect.delay 100] bss).filter
        (fun e => e = Effect.delay 100)).length = bss.length - 1
  | [], _ => by simp [List.intercalate]
  | [b], h => by
    have hb : ∀ e ∈ b, ¬(e = Effect.delay 100) := fun e he => h b (by simp) e he
    have hfil : List.filter (fun e => decide (e = Effect.delay 100)) b = [] := by
      rw [List.filter_eq_nil_iff]
      simpa using hb
    simp [List.intercalate, hfil]
  | b :: b' :: bs, h => by
    have hb : ∀ e ∈ b, ¬(e = Effect.delay 100) := fun e he => h b (by simp) e he
    have ih := filter_delay_intercalate (b' :: bs)
      (fun c hc e he => h c (by simp [hc]) e he)
    rw [intercalate_cons_cons, List.filter_append, List.filter_append]
    have hfil : List.filter (fun e => decide (e = Effect.delay 100)) b = [] := by
      rw [List.filter_eq_nil_iff]
      simpa using hb
    rw [hfil]
    simp only [List.length_append, List.length_cons, ih]
    simp
    omega

/-! ## C9: `verify ∘ sign` round-trip -/

/--
**C9.** For every identifier and secret — the empty/unset secret (which uses
the unkeyed fallback digest) included — `verifyUserIdSignature` accepts the
signature produced by `generateUserIdSignature`, because generation is
deterministic and verification recomputes it and compares for equality.
-/
theorem verify_sign_roundtrip (i s : String) :
    verifyUserIdSignature i (generateUserIdSignature i s) s = true := by
  simp [verifyUserIdSignature]

/-- Witness for C9 at a concrete identifier and the empty secret. -/
theorem verify_sign_roundtrip_witness :
    verifyUserIdSignature "12345" (generateUserIdSignature "12345" "") "" = true :=
  verify_sign_roundtrip "12345" ""

/-! ## C7: broadcast batching -/

/--
**C7.** For a non-empty explicit target list: the targets are partitioned
into `⌈n/10⌉` batches of at most 10; the outbound trace is exactly the
batches' delivery attempts joined by single 100 ms pacing delays (so every
member of a batch is settled before the next batch starts, and a delay
follows every batch except the last — the delay count is one less than the
batch count); and `success + failed = n` for every mix of per-recipient
outcomes, since an individual failure only increments `failed`.
-/
theorem broadcast_batching (ids : List String) (msg : String) (env : Env) (isMedia : Bool)
    (mid : Nat) (oracle : String → Option String) (hne : ids ≠ []) :
    (chunksOf 10 ids).length = (ids.length + 9) / 10 ∧
    (∀ b ∈ chunksOf 10 ids, b.length ≤ 10 ∧ b ≠ []) ∧
    (broadcastMessage (.ids ids) msg env isMedia mid oracle).2 =
      List.intercalate [Effect.delay 100]
        ((chunksOf 10 ids).map
          (fun b => b.map (broadcastAttempt isMedia env.adminId mid msg))) ∧
    ((broadcastMessage (.ids ids) msg env isMedia mid oracle).2.filter
        (fun e => e = Effect.delay 100)).length = (chunksOf 10 ids).length - 1 ∧
    (broadcastMessage (.ids ids) msg env isMedia mid oracle).1.success +
      (broadcastMessage (.ids ids) msg env isMedia mid oracle).1.failed = ids.length := by
  have hbm : broadcastMessage (.ids ids) msg env isMedia mid oracle =
      runBatches oracle (broadcastAttempt isMedia env.adminId mid msg)
        (chunksOf 10 ids) ⟨0, 0, []⟩ := by
    simp [broadcastMessage, List.isEmpty_iff, hne]
  have hrb := runBatches_spec oracle (broadcastAttempt isMedia env.adminId mid msg)
    (chunksOf 10 ids) ⟨0, 0, []⟩
  have hattempt : ∀ b ∈ (chunksOf 10 ids).map
      (fun b => b.map (broadcastAttempt isMedia env.adminId mid msg)),
      ∀ e ∈ b, e ≠ Effect.delay 100 := by
    intro b hb e he
    rcases List.mem_map.mp hb with ⟨c, _, rfl⟩
    rcases List.mem_map.mp he with ⟨id, _, rfl⟩
    by_cases hm : isMedia <;> simp [broadcastAttempt, hm]
  refine ⟨chunksOf_length_ten ids, chunksOf_sizes 10 (by norm_num) ids, ?_, ?_, ?_⟩
  · rw [hbm, hrb.2.2.2]
  · rw [hbm, hrb.2.2.2, filter_delay_intercalate _ hattempt]
    simp
  · rw [hbm]
    have := hrb.1
    simp only [Nat.zero_add] at this
    rw [this]
    have hflat : ((chunksOf 10 ids).map List.length).sum = ids.length := by
      have := chunksOf_flatten 10 (by norm_num) ids
      calc ((chunksOf 10 ids).map List.length).sum
          = (chunksOf 10 ids).flatten.length := by
            rw [List.length_flatten]
        _ = ids.length := by rw [this]
    simpa using hflat

/-- Witness for C7: the spec's 23-target example. -/
theorem broadcast_batching_witness :
    (chunksOf 10 ((List.range 23).map toString)).length =
      (((List.range 23).map toString).length + 9) / 10 ∧
    (∀ b ∈ chunksOf 10 ((List.range 23).map toString), b.length ≤ 10 ∧ b ≠ []) ∧
    (broadcastMessage (.ids ((List.range 23).map toString)) "hi" ⟨"1", true, true, [], ""⟩
        false 0 (fun id => if id = "5" then some "boom" else none)).2 =
      List.intercalate [Effect.delay 100]
        ((chunksOf 10 ((List.range 23).map toString)).map
          (fun b => b.map (broadcastAttempt false "1" 0 "hi"))) ∧
    ((broadcastMessage (.ids ((List.range 23).map toString)) "hi" ⟨"1", true, true, [], ""⟩
        false 0 (fun id => if id = "5" then some "boom" else none)).2.filter
        (fun e => e = Effect.delay 100)).length =
      (chunksOf 10 ((List.range 23).map toString)).length - 1 ∧
    (broadcastMessage (.ids ((List.range 23).map toString)) "hi" ⟨"1", true, true, [], ""⟩
        false 0 (fun id => if id = "5" then some "boom" else none)).1.success +
      (broadcastMessage (.ids ((List.range 23).map toString)) "hi" ⟨"1", true, true, [], ""⟩
        false 0 (fun id => if id = "5" then some "boom" else none)).1.failed =
      ((List.range 23).map toString).length :=
  broadcast_batching ((List.range 23).map toString) "hi" ⟨"1", true, true, [], ""⟩ false 0
    (fun id => if id = "5" then some "boom" else none) (by decide)

/-! ## C10: broadcast result invariants -/

/--
**C10.** Every `broadcastMessage` result satisfies `errors.length = failed`:
each failing recipient contributes exactly one diagnostic
(`用户 <identifier>: <message>`, in target order), and each synthetic
failure — the `'all'` sentinel over an empty directory, or an empty explicit
list — yields `success = 0`, `failed = 1`, exactly one diagnostic, and no
delivery attempt at all.
-/
theorem broadcast_result_invariant (msg : String) (env : Env) (isMedia : Bool) (mid : Nat)
    (oracle : String → Option String) :
    (∀ userIds, (broadcastMessage userIds msg env isMedia mid oracle).1.errors.length =
      (broadcastMessage userIds msg env isMedia mid oracle).1.failed) ∧
    (∀ ids : List String, ids ≠ [] →
      (broadcastMessage (.ids ids) msg env isMedia mid oracle).1.errors =
        ids.filterMap (diag oracle)) ∧
    (getUsersFromKV env = [] →
      broadcastMessage .all msg env isMedia mid oracle =
        (⟨0, 1, ["未找到可广播的用户，请确保已启用用户跟踪功能"]⟩, [])) ∧
    broadcastMessage (.ids []) msg env isMedia mid oracle =
      (⟨0, 1, ["未指定有效的用户ID"]⟩, []) := by
  have hids : ∀ ids : List String, ids ≠ [] →
      broadcastMessage (.ids ids) msg env isMedia mid oracle =
        runBatches oracle (broadcastAttempt isMedia env.adminId mid msg)
          (chunksOf 10 ids) ⟨0, 0, []⟩ := by
    intro ids hne
    simp [broadcastMessage, List.isEmpty_iff, hne]
  refine ⟨?_, ?_, ?_, ?_⟩
  · intro userIds
    cases userIds with
    | all =>
      by_cases hkv : ((getUsersFromKV env).map (fun u => toString u.chatId)).isEmpty
      · simp [broadcastMessage, hkv]
      · have hrb := runBatches_spec oracle (broadcastAttempt isMedia env.adminId mid msg)
          (chunksOf 10 ((getUsersFromKV env).map (fun u => toString u.chatId))) ⟨0, 0, []⟩
        have hflat := chunksOf_flatten 10 (by norm_num)
          ((getUsersFromKV env).map (fun u => toString u.chatId))
        simp only [broadcastMessage, hkv, Bool.false_eq_true, if_false]
        rw [hrb.2.1, hrb.2.2.1, hflat]
        simp
    | ids l =>
      cases l with
      | nil => simp [broadcastMessage]
      | cons x xs =>
        rw [hids (x :: xs) (by simp)]
        have hrb := runBatches_spec oracle (broadcastAttempt isMedia env.adminId mid msg)
          (chunksOf 10 (x :: xs)) ⟨0, 0, []⟩
        have hflat := chunksOf_flatten 10 (by norm_num) (x :: xs)
        rw [hrb.2.1, hrb.2.2.1, hflat]
        simp
  · intro ids hne
    rw [hids ids hne]
    have hrb := runBatches_spec oracle (broadcastAttempt isMedia env.adminId mid msg)
      (chunksOf 10 ids) ⟨0, 0, []⟩
    have hflat := chunksOf_flatten 10 (by norm_num) ids
    rw [hrb.2.1, hflat]
    simp
  · intro hkv
    simp [broadcastMessage, hkv]
  · simp [broadcastMessage]

/-- Witness for C10 at concrete inputs. -/
theorem broadcast_result_invariant_witness :
    (broadcastMessage (.ids ["8", "9"]) "m" ⟨"1", false, false, [], ""⟩ false 0
        (fun id => if id = "9" then some "gone" else none)).1.errors =
      ["8", "9"].filterMap (diag (fun id => if id = "9" then some "gone" else none)) :=
  (broadcast_result_invariant "m" ⟨"1", false, false, [], ""⟩ false 0
    (fun id => if id = "9" then some "gone" else none)).2.1 ["8", "9"] (by decide)

/-! ## C5: end-user `/start` -/

/--
**C5 (corrected).** The claim says a `/start` message performs no recipient
upsert.  In the source the upsert runs *before* the `/start` check: with
tracking enabled and storage bound, `/start` from a fresh user writes a new
record to the directory, so the store does change.
-/
theorem user_start_upserts_cex :
    (handleUserMessage ⟨some "/start", none, 1, some "u", none, 7, 7⟩
        ⟨"1", true, true, [], ""⟩ 5 "t" true).2 ≠ ([] : List UserData) ∧
    Effect.kvPut [⟨7, "u", 7, 5⟩] ∈
      (handleUserMessage ⟨some "/start", none, 1, some "u", none, 7, 7⟩
        ⟨"1", true, true, [], ""⟩ 5 "t" true).1 := by
  decide

/--
**C5 (amended).** On `/start` the worker sends exactly the fixed welcome
reply to the user and stops: nothing is sent or copied to the admin.  The
recipient upsert, however, happens before the `/start` check, so the
directory is updated exactly when tracking is enabled and storage is bound
(and is unchanged otherwise).
-/
theorem user_start_behavior (m : Msg) (env : Env) (now : Nat) (timeStr : String)
    (forwardOk : Bool) (hstart : m.text = some "/start")
    (hne : toString m.chatId ≠ env.adminId) :
    (handleUserMessage m env now timeStr forwardOk).1 =
      (if env.tracking && env.hasStorage then
        [Effect.kvPut (addUserToKV m.chatId (displayName m) m.fromId env.kv now)]
       else []) ++ [.sendMsg (toString m.chatId) welcomeText none] ∧
    (∀ e ∈ (handleUserMessage m env now timeStr forwardOk).1,
      (∀ t o, e ≠ .sendMsg env.adminId t o) ∧ (∀ a b c d, e ≠ .copyMsg a b c d)) ∧
    (handleUserMessage m env now timeStr forwardOk).2 =
      (if env.tracking && env.hasStorage then
        addUserToKV m.chatId (displayName m) m.fromId env.kv now
       else env.kv) := by
  have htr : (handleUserMessage m env now timeStr forwardOk).1 =
      (if env.tracking && env.hasStorage then
        [Effect.kvPut (addUserToKV m.chatId (displayName m) m.fromId env.kv now)]
       else []) ++ [.sendMsg (toString m.chatId) welcomeText none] := by
    by_cases h : env.tracking && env.hasStorage <;>
      simp [handleUserMessage, hstart, h]
  refine ⟨htr, ?_, ?_⟩
  · intro e he
    rw [htr] at he
    rcases List.mem_append.mp he with h | h
    · constructor
      · intro t o
        by_cases hc : env.tracking && env.hasStorage <;> simp [hc] at h
        simp [h]
      · intro a b c d
        by_cases hc : env.tracking && env.hasStorage <;> simp [hc] at h
        simp [h]
    · simp only [List.mem_singleton] at h
      subst h
      exact ⟨fun t o => by simp [hne], fun a b c d => by simp⟩
  · by_cases h : env.tracking && env.hasStorage <;>
      simp [handleUserMessage, hstart, h]

/-- Witness for the amended C5 with tracking disabled. -/
theorem user_start_behavior_witness :
    (handleUserMessage ⟨some "/start", none, 3, none, some "n", 9, 9⟩
        ⟨"1", false, false, [], "k"⟩ 0 "t" false).1 =
      (if (false : Bool) && (false : Bool) then
        [Effect.kvPut (addUserToKV 9 (displayName ⟨some "/start", none, 3, none, some "n", 9, 9⟩)
          9 [] 0)]
       else []) ++ [.sendMsg (toString (9 : Int)) welcomeText none] ∧
    (∀ e ∈ (handleUserMessage ⟨some "/start", none, 3, none, some "n", 9, 9⟩
        ⟨"1", false, false, [], "k"⟩ 0 "t" false).1,
      (∀ t o, e ≠ .sendMsg "1" t o) ∧ (∀ a b c d, e ≠ .copyMsg a b c d)) ∧
    (handleUserMessage ⟨some "/start", none, 3, none, some "n", 9, 9⟩
        ⟨"1", false, false, [], "k"⟩ 0 "t" false).2 =
      (if (false : Bool) && (false : Bool) then
        addUserToKV 9 (displayName ⟨some "/start", none, 3, none, some "n", 9, 9⟩) 9 [] 0
       else []) :=
  user_start_behavior ⟨some "/start", none, 3, none, some "n", 9, 9⟩
    ⟨"1", false, false, [], "k"⟩ 0 "t" false rfl (by decide)

/-! ## C1: `/post` while replying — the media-broadcast branch is dead code -/

/-- Is an effect a `copyMessage` call? -/
def isCopyEffect : Effect → Bool
  | .copyMsg _ _ _ _ => true
  | _ => false

/--
**C1 (code bug).** The worker's own help texts (`/help` and the `/post`
usage message) document that replying to a media message with `/post`
broadcasts the *replied-to media*.  But every admin text starting with
`/post` is consumed by the plain-text broadcast branch, which returns on all
paths before the reply-handling block, so the media branch is unreachable:
on the documented input the worker issues `sendMessage` broadcasts of the
admin's text and never a `copyMessage` of the quoted message.
-/
theorem post_reply_is_text_broadcast :
    handleAdminMessage ⟨some "/post all hello", none, 5, some ⟨none, some "p", 99⟩⟩
        ⟨"1", true, true, [⟨123, "u", 123, 0⟩], ""⟩ (fun _ => none) true none "now"
        (fun _ => "t") =
      [.sendMsg "1" "🚀 开始群发消息...\n\n📊 目标用户数: 1\n⏳ 请稍候..." (some 5),
       .sendMsg "123" "📢 *管理员广播:*\n\nhello" none,
       .sendMsg "1" "📊 *群发完成报告*\n\n✅ 成功: 1\n❌ 失败: 0\n\n🎉 全部发送成功！" none] ∧
    (handleAdminMessage ⟨some "/post all hello", none, 5, some ⟨none, some "p", 99⟩⟩
        ⟨"1", true, true, [⟨123, "u", 123, 0⟩], ""⟩ (fun _ => none) true none "now"
        (fun _ => "t")).all (fun e => !isCopyEffect e) = true := by
  decide

/-! ## Helper lemmas: the signed-tag pattern -/

theorem isDigit_ne_lbracket {c : Char} (h : c.isDigit = true) : c ≠ '[' := by
  intro hc
  rw [hc] at h
  exact absurd h (by decide)

theorem isHexLower_ne_lbracket {c : Char} (h : isHexLower c = true) : c ≠ '[' := by
  intro hc
  rw [hc] at h
  exact absurd h (by decide)

theorem sha256_length (msg : List Nat) : (sha256 msg).length = 32 := by
  simp [sha256, wordBytes]

theorem hexEncode_length : ∀ bytes : List Nat, (hexEncode bytes).length = 2 * bytes.length
  | [] => rfl
  | b :: rest => by
    simp [hexEncode, hexByte] at *
    have := hexEncode_length rest
    simp [hexEncode] at this
    omega

theorem isHexLower_hexDigit {n : Nat} (h : n < 16) : isHexLower (hexDigit n) = true := by
  interval_cases n <;> decide

theorem hexEncode_all_hex : ∀ bytes : List Nat, (hexEncode bytes).all isHexLower = true
  | [] => rfl
  | b :: rest => by
    have ih := hexEncode_all_hex rest
    have h1 : isHexLower (hexDigit (b / 16 % 16)) = true :=
      isHexLower_hexDigit (Nat.mod_lt _ (by norm_num))
    have h2 : isHexLower (hexDigit (b % 16)) = true :=
      isHexLower_hexDigit (Nat.mod_lt _ (by norm_num))
    simp only [hexEncode, List.flatMap_cons, List.all_append, List.all_cons, List.all_nil,
      hexByte] at ih ⊢
    simp [h1, h2, ih]

theorem hmacSha256_length (key msg : List Nat) : (hmacSha256 key msg).length = 32 := by
  simp [hmacSha256, sha256_length]

/-- The signature rendered by `generateUserIdSignature` is exactly 16
lowercase hex characters, whichever branch produced it. -/
theorem signature_shape (i s : String) :
    (generateUserIdSignature i s).data.length = 16 ∧
      (generateUserIdSignature i s).data.all isHexLower = true := by
  unfold generateUserIdSignature
  split
  · constructor
    · show ((hexEncode (sha256 _)).take 16).length = 16
      rw [List.length_take, hexEncode_length, sha256_length]
      omega
    · show ((hexEncode (sha256 _)).take 16).all isHexLower = true
      rw [List.all_eq_true]
      intro c hc
      have hall := hexEncode_all_hex (sha256 (utf8Bytes ("user:" ++ i ++ ":fallback")))
      rw [List.all_eq_true] at hall
      exact hall c (List.mem_of_mem_take hc)
  · constructor
    · show ((hexEncode (hmacSha256 _ _)).take 16).length = 16
      rw [List.length_take, hexEncode_length, hmacSha256_length]
      omega
    · show ((hexEncode (hmacSha256 _ _)).take 16).all isHexLower = true
      rw [List.all_eq_true]
      intro c hc
      have hall := hexEncode_all_hex (hmacSha256 (utf8Bytes s) (utf8Bytes ("user:" ++ i)))
      rw [List.all_eq_true] at hall
      exact hall c (List.mem_of_mem_take hc)

theorem matchSecureAt_tag (ds sig rest : List Char) (hne : ds ≠ [])
    (hdig : ds.all Char.isDigit = true) (hlen : sig.length = 16)
    (hhex : sig.all isHexLower = true) :
    matchSecureAt ('[' :: 'U' :: 'S' :: 'E' :: 'R' :: ':' ::
        (ds ++ ':' :: (sig ++ ']' :: rest))) = some (ds, sig) := by
  have hdigall : ∀ a ∈ ds, Char.isDigit a := by simpa [List.all_eq_true] using hdig
  have htake : (ds ++ ':' :: (sig ++ ']' :: rest)).takeWhile Char.isDigit = ds := by
    rw [List.takeWhile_append_of_pos hdigall,
      List.takeWhile_cons_of_neg (by decide : ¬Char.isDigit ':' = true)]
    simp
  have hdrop : (ds ++ ':' :: (sig ++ ']' :: rest)).dropWhile Char.isDigit =
      ':' :: (sig ++ ']' :: rest) := by
    rw [List.dropWhile_append_of_pos hdigall,
      List.dropWhile_cons_of_neg (by decide : ¬Char.isDigit ':' = true)]
  have htake16 : (sig ++ ']' :: rest).take 16 = sig := List.take_left' hlen
  have hdrop16 : (sig ++ ']' :: rest).drop 16 = ']' :: rest := List.drop_left' hlen
  simp only [matchSecureAt, htake, hdrop, htake16, hdrop16, hlen, hhex]
  simp [List.isEmpty_iff, hne]

theorem matchSecureAt_some_shape {l ds sig : List Char}
    (h : matchSecureAt l = some (ds, sig)) :
    ∃ rest, l = '[' :: 'U' :: 'S' :: 'E' :: 'R' :: ':' ::
        (ds ++ ':' :: (sig ++ ']' :: rest)) ∧
      ds ≠ [] ∧ ds.all Char.isDigit = true ∧ sig.length = 16 ∧
      sig.all isHexLower = true := by
  unfold matchSecureAt at h
  split at h
  case _ rest =>
    dsimp only at h
    split at h
    case _ rest3 hdrop =>
      by_cases hempty : (rest.takeWhile Char.isDigit).isEmpty = true
      · rw [if_pos hempty] at h
        exact absurd h (by simp)
      · rw [if_neg hempty] at h
        by_cases hcond :
            (decide ((rest3.take 16).length = 16) && (rest3.take 16).all isHexLower) = true
        · rw [if_pos hcond] at h
          split at h
          case _ tail hdrop16 =>
            injection h with h'
            have hds : rest.takeWhile Char.isDigit = ds := congrArg Prod.fst h'
            have hsig : rest3.take 16 = sig := congrArg Prod.snd h'
            have hrest : rest = ds ++ ':' :: rest3 := by
              conv_lhs => rw [← List.takeWhile_append_dropWhile (p := Char.isDigit) (l := rest)]
              rw [hds, hdrop]
            have hrest3 : rest3 = sig ++ ']' :: tail := by
              conv_lhs => rw [← List.take_append_drop 16 rest3]
              rw [hsig, hdrop16]
            have hcond' := (Bool.and_eq_true _ _).mp hcond
            refine ⟨tail, ?_, ?_, ?_, ?_, ?_⟩
            · rw [hrest, hrest3]
            · intro hd
              apply hempty
              rw [hds, hd]
              rfl
            · rw [← hds, List.all_eq_true]
              intro c hc
              exact List.mem_takeWhile_imp hc
            · rw [← hsig]
              exact of_decide_eq_true hcond'.1
            · rw [← hsig]
              exact hcond'.2
          case _ => exact absurd h (by simp)
        · rw [if_neg hcond] at h
          exact absurd h (by simp)
    case _ => exact absurd h (by simp)
  case _ => exact absurd h (by simp)

/-- Every character of the matched pattern after the opening bracket is
different from `'['`: a signed-tag match can never straddle a later
occurrence of `'['`. -/
theorem tagTail_no_lbracket {ds sig : List Char} (hdig : ds.all Char.isDigit = true)
    (hhex : sig.all isHexLower = true) :
    ∀ c ∈ 'U' :: 'S' :: 'E' :: 'R' :: ':' :: (ds ++ ':' :: (sig ++ [']'])), c ≠ '[' := by
  intro c hcm
  simp only [List.mem_cons, List.mem_append, List.mem_singleton] at hcm
  rcases hcm with rfl | rfl | rfl | rfl | rfl | hds | rfl | hsig | hlast
  · decide
  · decide
  · decide
  · decide
  · decide
  · exact isDigit_ne_lbracket (List.all_eq_true.mp hdig c hds)
  · decide
  · exact isHexLower_ne_lbracket (List.all_eq_true.mp hhex c hsig)
  · rcases hlast with rfl | h0
    · decide
    · simp at h0

/-- A failed signed-tag match at a position stays failed when the text
continues with a later `'['`: the bracket can contribute to no match that
starts earlier. -/
theorem matchSecureAt_append_lbracket (xs ys : List Char) (hne : xs ≠ [])
    (h : matchSecureAt xs = none) : matchSecureAt (xs ++ '[' :: ys) = none := by
  cases hm : matchSecureAt (xs ++ '[' :: ys) with
  | none => rfl
  | some r =>
    obtain ⟨ds, sig⟩ := r
    obtain ⟨rest, hshape, hdsne, hdig, hlen, hhex⟩ := matchSecureAt_some_shape hm
    -- the matched region, minus the opening bracket
    have hassoc : 'U' :: 'S' :: 'E' :: 'R' :: ':' :: (ds ++ ':' :: (sig ++ ']' :: rest)) =
        ('U' :: 'S' :: 'E' :: 'R' :: ':' :: (ds ++ ':' :: (sig ++ [']']))) ++ rest := by
      simp
    cases xs with
    | nil => exact absurd rfl hne
    | cons x xs' =>
      have hx : x = '[' := by
        have h0 := congrArg (fun l => l.headD ' ') hshape
        simpa only [List.cons_append, List.headD_cons] using h0
      subst hx
      have htail : xs' ++ '[' :: ys =
          ('U' :: 'S' :: 'E' :: 'R' :: ':' :: (ds ++ ':' :: (sig ++ [']']))) ++ rest := by
        have h0 := congrArg List.tail hshape
        simp only [List.cons_append, List.tail_cons] at h0
        rw [h0, hassoc]
      set T := 'U' :: 'S' :: 'E' :: 'R' :: ':' :: (ds ++ ':' :: (sig ++ [']'])) with hT
      rcases Nat.lt_or_ge xs'.length T.length with hlt | hge
      · -- the inserted '[' would land strictly inside the matched region
        have hidx : (xs' ++ '[' :: ys)[xs'.length]? = some '[' := by
          rw [List.getElem?_append_right (Nat.le_refl _)]
          simp
        rw [htail, List.getElem?_append_left hlt] at hidx
        have : ('[' : Char) ∈ T := List.getElem?_mem hidx
        exact absurd rfl (tagTail_no_lbracket hdig hhex '[' (hT ▸ this))
      · -- the whole match fits inside `xs`, so `matchSecureAt xs` succeeds
        have htake : xs'.take T.length = T := by
          have := congrArg (fun l => l.take T.length) htail
          simp only at this
          rw [List.take_append_eq_append_take, Nat.sub_eq_zero_of_le hge,
            List.take_zero, List.append_nil, List.take_left] at this
          exact this
        have hxs' : xs' = T ++ xs'.drop T.length := by
          conv_lhs => rw [← List.take_append_drop T.length xs']
          rw [htake]
        have : matchSecureAt ('[' :: xs') = some (ds, sig) := by
          rw [hxs']
          have hshape2 : '[' :: (T ++ xs'.drop T.length) =
              '[' :: 'U' :: 'S' :: 'E' :: 'R' :: ':' ::
                (ds ++ ':' :: (sig ++ ']' :: xs'.drop T.length)) := by
            rw [hT]
            simp
          rw [hshape2]
          exact matchSecureAt_tag ds sig _ hdsne hdig hlen hhex
        rw [this] at h
        exact absurd h (by simp)

/-- Unfolding `findSecure` on a cons cell that fails to match. -/
theorem findSecure_cons_none {c : Char} {cs : List Char}
    (h : findSecure (c :: cs) = none) :
    matchSecureAt (c :: cs) = none ∧ findSecure cs = none := by
  unfold findSecure at h
  cases hm : matchSecureAt (c :: cs) with
  | some r => rw [hm] at h; exact absurd h (by simp)
  | none => rw [hm] at h; exact ⟨rfl, h⟩

/-- If no signed tag matches inside `pre`, the leftmost match of
`pre ++ '[' :: ys` is the match at the bracket. -/
theorem findSecure_append_tag :
    ∀ (pre : List Char), findSecure pre = none →
      ∀ (ys : List Char) (r : List Char × List Char),
        matchSecureAt ('[' :: ys) = some r → findSecure (pre ++ '[' :: ys) = some r
  | [], _, ys, r, hm => by
    simp only [List.nil_append, findSecure, hm]
  | c :: cs, hpre, ys, r, hm => by
    obtain ⟨hhead, htailpre⟩ := findSecure_cons_none hpre
    have hext : matchSecureAt (c :: (cs ++ '[' :: ys)) = none := by
      have h0 := matchSecureAt_append_lbracket (c :: cs) ys (by simp) hhead
      simpa only [List.cons_append] using h0
    have ih := findSecure_append_tag cs htailpre ys r hm
    simp only [List.cons_append, findSecure, List.append_eq]
    rw [hext]
    exact ih

/-- The character-level decomposition of `createSecureUserTag`. -/
theorem createSecureUserTag_data (i s : String) :
    (createSecureUserTag i s).data = '[' :: 'U' :: 'S' :: 'E' :: 'R' :: ':' ::
      (i.data ++ ':' :: ((generateUserIdSignature i s).data ++ [']'])) := by
  simp [createSecureUserTag, String.data_append]

/-! ## C3: wrong secret rejected -/

/--
**C3.** A signed tag produced under `s1` is rejected by `extractUserChatId`
under a different secret `s2`: the signed pattern matches, re-verification
recomputes the signature under `s2` and the comparison fails (the truncated
digests differing under distinct secrets is the claim's premise, taken here
as the explicit hypothesis `hsig`), and the signed branch returns `null`
directly — it never falls back to the legacy path.
-/
theorem extract_rejects_wrong_secret (i s1 s2 : String)
    (hne : i.data ≠ []) (hdig : i.data.all Char.isDigit = true) (_hs : s1 ≠ s2)
    (hsig : generateUserIdSignature i s2 ≠ generateUserIdSignature i s1) :
    extractUserChatId (some (createSecureUserTag i s1)) s2 = none := by
  have hshape := createSecureUserTag_data i s1
  have hsigsh := signature_shape i s1
  have hmatch : matchSecureAt (createSecureUserTag i s1).data =
      some (i.data, (generateUserIdSignature i s1).data) := by
    rw [hshape]
    exact matchSecureAt_tag i.data _ [] hne hdig hsigsh.1 hsigsh.2
  have hfind : findSecure (createSecureUserTag i s1).data =
      some (i.data, (generateUserIdSignature i s1).data) := by
    rw [hshape] at hmatch ⊢
    simp only [findSecure, hmatch]
  have htne : createSecureUserTag i s1 ≠ "" := by
    intro h0
    have h1 := congrArg String.data h0
    rw [hshape] at h1
    simp at h1
  have hver : verifyUserIdSignature (String.mk i.data)
      (String.mk (generateUserIdSignature i s1).data) s2 = false := by
    rw [string_mk_data, string_mk_data]
    unfold verifyUserIdSignature
    rw [beq_eq_false_iff_ne]
    exact fun hcontra => hsig (hcontra ▸ rfl)
  simp only [extractUserChatId, if_neg htne, hfind, hver]
  simp

/-- Witness for C3 at concrete secrets, with the digest inequality computed
by the real HMAC-SHA-256. -/
theorem extract_rejects_wrong_secret_witness :
    extractUserChatId (some (createSecureUserTag "7" "a")) "b" = none :=
  extract_rejects_wrong_secret "7" "a" "b" (by decide) (by decide) (by decide) (by decide)

/-! ## C2: embed/extract round-trip -/

/--
**C2 (corrected, claim as amended).** The generated signature is exactly 16
lowercase hex characters, so the signed pattern matches the embedded tag.
Embedding `createSecureUserTag i s` in any text *whose part before the tag
contains no signed-pattern match of its own* and extracting with the same
secret returns `i`.  (The restriction on the prefix is forced by the
counterexample `tag_embed_roundtrip_cex`: an earlier signed-looking tag is
matched first and its failing verification yields `null`.)
-/
theorem tag_embed_roundtrip (i s : String) (pre post : List Char)
    (hne : i.data ≠ []) (hdig : i.data.all Char.isDigit = true)
    (hpre : findSecure pre = none) :
    ((generateUserIdSignature i s).data.length = 16 ∧
      (generateUserIdSignature i s).data.all isHexLower = true) ∧
    extractUserChatId (some (String.mk (pre ++ (createSecureUserTag i s).data ++ post))) s =
      some i := by
  have hsigsh := signature_shape i s
  refine ⟨hsigsh, ?_⟩
  have htagpost : (createSecureUserTag i s).data ++ post =
      '[' :: 'U' :: 'S' :: 'E' :: 'R' :: ':' ::
        (i.data ++ ':' :: ((generateUserIdSignature i s).data ++ ']' :: post)) := by
    rw [createSecureUserTag_data]
    simp
  have hmatch : matchSecureAt ('[' :: 'U' :: 'S' :: 'E' :: 'R' :: ':' ::
      (i.data ++ ':' :: ((generateUserIdSignature i s).data ++ ']' :: post))) =
      some (i.data, (generateUserIdSignature i s).data) :=
    matchSecureAt_tag i.data _ post hne hdig hsigsh.1 hsigsh.2
  have hfind : findSecure (pre ++ (createSecureUserTag i s).data ++ post) =
      some (i.data, (generateUserIdSignature i s).data) := by
    rw [List.append_assoc, htagpost]
    exact findSecure_append_tag pre hpre _ _ hmatch
  have htne : String.mk (pre ++ (createSecureUserTag i s).data ++ post) ≠ "" := by
    intro h0
    have h1 := (string_mk_eq_empty_iff _).mp h0
    rw [createSecureUserTag_data] at h1
    simp at h1
  have hver : verifyUserIdSignature (String.mk i.data)
      (String.mk (generateUserIdSignature i s).data) s = true := by
    rw [string_mk_data, string_mk_data]
    simp [verifyUserIdSignature]
  have hdata : (String.mk (pre ++ (createSecureUserTag i s).data ++ post)).data =
      pre ++ (createSecureUserTag i s).data ++ post := rfl
  simp only [extractUserChatId, if_neg htne, hdata, hfind, hver]
  simp [string_mk_data]

/-- Witness for C2: tag embedded mid-text, benign prefix. -/
theorem tag_embed_roundtrip_witness :
    (((generateUserIdSignature "5" "k").data.length = 16 ∧
      (generateUserIdSignature "5" "k").data.all isHexLower = true) ∧
    extractUserChatId
      (some (String.mk ("hi ".data ++ (createSecureUserTag "5" "k").data ++ " yo".data))) "k" =
      some "5") :=
  tag_embed_roundtrip "5" "k" "hi ".data " yo".data (by decide) (by decide) (by decide)

/--
**C2 (counterexample to the claim as stated).** Embedding a genuine tag
"anywhere in a text" is not sufficient: with a signed-looking decoy earlier
in the text, the decoy is matched first, its signature fails verification,
and extraction returns `null` instead of the embedded identifier.
-/
theorem tag_embed_roundtrip_cex :
    extractUserChatId (some ("[USER:1:aaaaaaaaaaaaaaaa]" ++ createSecureUserTag "2" "")) "" ≠
      some "2" := by
  decide

/-! ## C4: legacy fallback and signed precedence -/

/--
**C4.** When no signed-format pattern matches the text, a matching legacy
tag `[USER:<digits>]` (not followed by a colon or word character — the
lookahead is part of `findLegacy`) is returned without any verification;
when a signed-format pattern is present, the result is determined by the
signed match alone — the verified identifier or `null`, never the legacy
one.  The last conjunct is the spec's concrete example, valid for every
secret.
-/
theorem extract_legacy_precedence (s t : String) (d : List Char) :
    (findSecure t.data = none → findLegacy t.data = some d →
      extractUserChatId (some t) s = some (String.mk d)) ∧
    (∀ ds sig : List Char, findSecure t.data = some (ds, sig) →
      extractUserChatId (some t) s =
        (if verifyUserIdSignature (String.mk ds) (String.mk sig) s then some (String.mk ds)
         else none)) ∧
    extractUserChatId (some "[USER:42]") s = some "42" := by
  refine ⟨?_, ?_, ?_⟩
  · intro hsec hleg
    have htne : t ≠ "" := by
      intro h0
      subst h0
      simp [findLegacy] at hleg
    simp only [extractUserChatId, if_neg htne, hsec, hleg]
  · intro ds sig hsec
    have htne : t ≠ "" := by
      intro h0
      subst h0
      simp [findSecure] at hsec
    simp only [extractUserChatId, if_neg htne, hsec]
  · have h1 : findSecure ("[USER:42]" : String).data = none := by decide
    have h2 : findLegacy ("[USER:42]" : String).data = some ['4', '2'] := by decide
    have htne : ("[USER:42]" : String) ≠ "" := by decide
    simp only [extractUserChatId, if_neg htne, h1, h2]

/-- Witness for C4 at a concrete legacy-tagged text. -/
theorem extract_legacy_precedence_witness :
    extractUserChatId (some "x [USER:42] y") "k" = some (String.mk ['4', '2']) :=
  (extract_legacy_precedence "k" "x [USER:42] y" ['4', '2']).1 (by decide) (by decide)

/-! ## Helper lemmas: the directory cap -/

theorem set_of_getElem? {l : List α} {i : Nat} {a : α} (h : l[i]? = some a) :
    l.set i a = l := by
  induction l generalizing i with
  | nil => simp at h
  | cons x xs ih =>
    cases i with
    | zero =>
      simp only [List.getElem?_cons_zero, Option.some.injEq] at h
      simp [h]
    | succ n =>
      simp only [List.getElem?_cons_succ] at h
      simp [ih h]

theorem recGE_trans : ∀ a b c : UserData, recGE a b = true → recGE b c = true →
    recGE a c = true := by
  intro a b c h1 h2
  simp only [recGE, decide_eq_true_eq] at *
  omega

theorem recGE_total : ∀ a b : UserData, (recGE a b || recGE b a) = true := by
  intro a b
  simp only [recGE, Bool.or_eq_true, decide_eq_true_eq]
  omega

/-! ## C8: directory cap and eviction -/

/--
**C8.** After an upsert the directory holds at most 1000 records (given it
held at most 1000 before) with at most one record per conversation
identifier.  Upserting a 1001st distinct identifier triggers the full
recency sort and keeps exactly the 1000 most recent records: some evicted
record exists such that the result is a permutation of the other 1000, and —
when the activity timestamps are pairwise distinct, which is what makes
"the least-recently-active record" well defined — every surviving record is
strictly more recently active than the evicted one.
-/
theorem addUserToKV_cap (chatId : Int) (userName : String) (userId : Int)
    (users : List UserData) (now : Nat) :
    (users.length ≤ 1000 → (addUserToKV chatId userName userId users now).length ≤ 1000) ∧
    ((users.map UserData.chatId).Nodup →
      ((addUserToKV chatId userName userId users now).map UserData.chatId).Nodup) ∧
    (users.length = 1000 → chatId ∉ users.map UserData.chatId →
      ((users ++ [newUserData chatId userName userId now]).map UserData.lastActive).Nodup →
      ∃ evicted ∈ users ++ [newUserData chatId userName userId now],
        (addUserToKV chatId userName userId users now).length = 1000 ∧
        (addUserToKV chatId userName userId users now).Perm
          ((users ++ [newUserData chatId userName userId now]).erase evicted) ∧
        ∀ r ∈ addUserToKV chatId userName userId users now,
          evicted.lastActive < r.lastActive) := by
  refine ⟨?_, ?_, ?_⟩
  · -- cap on length
    intro hlen
    unfold addUserToKV
    cases hf : users.findIdx? (fun u => u.chatId = chatId) with
    | some i =>
      simp only
      split
      · simp
      · simpa using hlen
    | none =>
      simp only
      split
      · simp
      · next hnotgt => simpa using Nat.le_of_not_lt (by simpa using hnotgt)
  · -- uniqueness of identifiers is preserved
    intro hnd
    unfold addUserToKV
    cases hf : users.findIdx? (fun u => u.chatId = chatId) with
    | some i =>
      obtain ⟨hi, hpi, -⟩ := List.findIdx?_eq_some_iff_getElem.mp hf
      have hchat : users[i].chatId = chatId := of_decide_eq_true hpi
      have hmapset : (users.set i (newUserData chatId userName userId now)).map
          UserData.chatId = users.map UserData.chatId := by
        rw [List.map_set]
        apply set_of_getElem?
        rw [List.getElem?_eq_getElem (by simpa using hi), List.getElem_map]
        simp [hchat, newUserData]
      simp only
      split
      · have hperm := (List.mergeSort_perm
          (users.set i (newUserData chatId userName userId now)) recGE).map UserData.chatId
        have hnd2 : ((users.set i (newUserData chatId userName userId now)).mergeSort
            recGE).map UserData.chatId |>.Nodup := by
          rw [hperm.nodup_iff, hmapset]
          exact hnd
        exact hnd2.sublist ((List.take_sublist _ _).map _)
      · rw [hmapset]
        exact hnd
    | none =>
      have hfresh : chatId ∉ users.map UserData.chatId := by
        intro hmem
        rcases List.mem_map.mp hmem with ⟨u, hu, hequ⟩
        have := List.findIdx?_eq_none_iff.mp hf u hu
        rw [hequ] at this
        simp at this
      have hnd1 : ((users ++ [newUserData chatId userName userId now]).map
          UserData.chatId).Nodup := by
        rw [List.map_append, List.nodup_append]
        refine ⟨hnd, by simp, ?_⟩
        intro a ha hb
        simp only [List.map_cons, List.map_nil, List.mem_singleton, newUserData] at hb
        subst hb
        exact hfresh ha
      simp only
      split
      · have hperm := (List.mergeSort_perm
          (users ++ [newUserData chatId userName userId now]) recGE).map UserData.chatId
        have hnd2 : ((users ++ [newUserData chatId userName userId now]).mergeSort
            recGE).map UserData.chatId |>.Nodup := by
          rw [hperm.nodup_iff]
          exact hnd1
        exact hnd2.sublist ((List.take_sublist _ _).map _)
      · exact hnd1
  · -- eviction of the least-recently-active record
    intro hlen hfresh hnodupLA
    have hf : users.findIdx? (fun u => u.chatId = chatId) = none := by
      rw [List.findIdx?_eq_none_iff]
      intro u hu
      simp only [decide_eq_false_iff_not]
      intro hequ
      exact hfresh (hequ ▸ List.mem_map_of_mem UserData.chatId hu)
    have hout : addUserToKV chatId userName userId users now =
        ((users ++ [newUserData chatId userName userId now]).mergeSort recGE).take 1000 := by
      unfold addUserToKV
      simp only [hf]
      rw [if_pos (by simp [hlen])]
    set d := newUserData chatId userName userId now with hd
    set sorted := (users ++ [d]).mergeSort recGE with hsorted
    have hperm : sorted.Perm (users ++ [d]) := List.mergeSort_perm (users ++ [d]) recGE
    have hlensorted : sorted.length = 1001 := by
      rw [hperm.length_eq]
      simp [hlen]
    have hpair : List.Pairwise (fun a b => recGE a b = true) sorted :=
      List.sorted_mergeSort recGE_trans recGE_total (users ++ [d])
    have hsplit : sorted.take 1000 ++ sorted.drop 1000 = sorted := List.take_append_drop _ _
    have hdroplen : (sorted.drop 1000).length = 1 := by simp [hlensorted]
    obtain ⟨evicted, hev⟩ := List.length_eq_one.mp hdroplen
    have hmemall : evicted ∈ users ++ [d] := by
      apply hperm.mem_iff.mp
      rw [← hsplit]
      exact List.mem_append_right _ (by simp [hev])
    have hLA : ((sorted.take 1000).map UserData.lastActive ++
        (sorted.drop 1000).map UserData.lastActive).Nodup := by
      rw [← List.map_append, hsplit]
      exact ((hperm.map UserData.lastActive).nodup_iff).mpr hnodupLA
    have hdisj := (List.nodup_append.mp hLA).2.2
    have hnotin : evicted ∉ sorted.take 1000 := by
      intro hmem
      exact hdisj (List.mem_map_of_mem _ hmem) (by simp [hev])
    have hstrict : ∀ r ∈ sorted.take 1000, evicted.lastActive < r.lastActive := by
      intro r hr
      have hp : List.Pairwise (fun a b => recGE a b = true)
          (sorted.take 1000 ++ sorted.drop 1000) := by
        rw [hsplit]
        exact hpair
      have hle := (List.pairwise_append.mp hp).2.2 r hr evicted (by simp [hev])
      have hnele : r.lastActive ≠ evicted.lastActive := by
        intro heq
        exact hdisj (List.mem_map_of_mem _ hr) (by simp [hev, ← heq])
      simp only [recGE, decide_eq_true_eq] at hle
      omega
    have houtlen : (sorted.take 1000).length = 1000 := by simp [hlensorted]
    have hperm2 : (sorted.take 1000).Perm ((users ++ [d]).erase evicted) := by
      have h2 : ((users ++ [d]).erase evicted).Perm (sorted.erase evicted) :=
        List.Perm.erase evicted hperm.symm
      have h3 : sorted.erase evicted = sorted.take 1000 := by
        conv_lhs => rw [← hsplit, hev]
        rw [List.erase_append_right _ hnotin, List.erase_cons_head]
        simp
      rw [h3] at h2
      exact h2.symm
    exact ⟨evicted, hmemall, by rw [hout]; exact houtlen,
      by rw [hout]; exact hperm2,
      by rw [hout]; exact hstrict⟩

/-- A concrete full directory: identifiers `0 … 999`, last active at
`1 … 1000`. -/
def witnessUsers : List UserData :=
  (List.range 1000).map fun k : Nat => UserData.mk (k : Int) "" (k : Int) (k + 1)

/-- Witness for C8: upserting identifier 1000 (least recent, `lastActive =
0`) into the full directory. -/
theorem addUserToKV_cap_witness :
    ∃ evicted ∈ witnessUsers ++ [newUserData 1000 "new" 1000 0],
      (addUserToKV 1000 "new" 1000 witnessUsers 0).length = 1000 ∧
      (addUserToKV 1000 "new" 1000 witnessUsers 0).Perm
        ((witnessUsers ++ [newUserData 1000 "new" 1000 0]).erase evicted) ∧
      ∀ r ∈ addUserToKV 1000 "new" 1000 witnessUsers 0,
        evicted.lastActive < r.lastActive := by
  have hlen : witnessUsers.length = 1000 := by simp [witnessUsers]
  have hfresh : (1000 : Int) ∉ witnessUsers.map UserData.chatId := by
    intro hmem
    simp only [witnessUsers, List.map_map, List.mem_map, List.mem_range,
      Function.comp] at hmem
    obtain ⟨k, hk, hek⟩ := hmem
    have hk1000 : (k : Int) = 1000 := hek
    omega
  have hnodup : ((witnessUsers ++ [newUserData 1000 "new" 1000 0]).map
      UserData.lastActive).Nodup := by
    rw [List.map_append, List.nodup_append]
    refine ⟨?_, by simp, ?_⟩
    · simp only [witnessUsers, List.map_map]
      have hinj : Function.Injective (fun k : Nat => k + 1) := fun a b h => by
        exact Nat.add_right_cancel h
      exact List.Nodup.map hinj (List.nodup_range 1000)
    · intro a ha hb
      simp only [newUserData, List.map_cons, List.map_nil, List.mem_singleton] at hb
      subst hb
      simp only [witnessUsers, List.map_map, List.mem_map, List.mem_range,
        Function.comp] at ha
      obtain ⟨k, hk, hek⟩ := ha
      have : k + 1 = 0 := hek
      omega
  exact (addUserToKV_cap 1000 "new" 1000 witnessUsers 0).2.2 hlen hfresh hnodup

end Worker
